import Mathlib

/-!
Verification of the log section parser and renderer of `glctl` (`src/utils.rs`).

The embedding works over `Str := List Char` (the characters of a Rust string).
Rust panics are represented explicitly: `ParseResult.panicked` for a panic inside
`Section::from_str`, and `Option` (with `none` for an escaped panic) for the renderer.
-/

namespace Glctl

/-- Characters of a Rust `String` / `&str`; the whole embedding works on character lists. -/
abbrev Str := List Char

/-- Rust `StyledStr` (from `color.rs`, which is not under `src/`).
Modelled from the spec: the styled-text sink accepts semantic style tags
(plain, emphasized, warning, error, hint) and renders them with or without color;
a message is an ordered list of (style, text) pieces built by `none`/`literal`/`warning`/... calls. -/
inductive Style
  | none_
  | literal
  | warning
  | hint
  | good
  | error_
  deriving DecidableEq, Repr

/-- One printed message: the (style, text) pieces appended by the builder calls. -/
abbrev StyledStr := List (Style × Str)

/-- Modelled from the spec: in plain (non-colorized) mode "styling effects are ignored
entirely", so a printed message contributes exactly the concatenation of its texts. -/
def StyledStr.plainText (m : StyledStr) : Str := (m.map Prod.snd).flatten

/-- Plain-mode bytes of a whole render: concatenation of all printed messages, in order. -/
def plainBytes (out : List StyledStr) : Str := (out.map StyledStr.plainText).flatten

/-- Modelled from the spec: the caller-supplied filter `{ all : bool, step : string }`
(`args::PipelineLog` lives in `args.rs`, which is not under `src/`); the renderer only
reads `args.all` and `args.step`. -/
structure PipelineLog where
  all : Bool
  step : Str
  deriving DecidableEq, Repr

/-- Modelled from the spec: the color mode, one of Always, Auto, Never
(`args::ColorChoice` lives in `args.rs`, which is not under `src/`). -/
inductive ColorChoice
  | always
  | auto
  | never
  deriving DecidableEq, Repr

/-- Source `utils.rs` 189-190: `mode == ColorChoice::Always || mode == ColorChoice::Auto &&
atty::is(atty::Stream::Stdout)`; the terminal probe result is passed as `istty`. -/
def resolveColored (mode : ColorChoice) (istty : Bool) : Bool :=
  mode == ColorChoice.always || (mode == ColorChoice.auto && istty)

/-- Source `utils.rs` 54-59: marker kind. -/
inductive SectionType
  | start
  | end_
  deriving DecidableEq, Repr

/-- Source `utils.rs` 61-73, `SectionType::from_str`; `none` stands for `Err(SectionError)`. -/
def SectionType.fromStr (s : Str) : Option SectionType :=
  if s = "section_start".data then some SectionType.start
  else if s = "section_end".data then some SectionType.end_
  else none

/-- Source `utils.rs` 78-85 (the `timestamp` field is commented out in the source). -/
structure Section where
  type_ : SectionType
  name : Str
  collapsed : Bool
  deriving DecidableEq, Repr

/-- Rust `str::trim` as applied to marker text (`utils.rs` 96): whitespace removed from
both ends; marker text is ASCII, for which `Char.isWhitespace` agrees with Rust. -/
def trim (cs : Str) : Str :=
  ((cs.dropWhile Char.isWhitespace).reverse.dropWhile Char.isWhitespace).reverse

/-- Split at the first `':'`: one step of Rust `splitn(_, ':')`.
Returns the part before the first colon and, when a colon exists, the rest after it. -/
def breakColon : Str → Str × Option Str
  | [] => ([], none)
  | c :: cs =>
    if c = ':' then ([], some cs)
    else
      let r := breakColon cs
      (c :: r.1, r.2)

/-- Rust `s.splitn(3, ':')` collected to a vector (`utils.rs` 94-98): at most three
fields, the last keeping any further colons. -/
def splitn3 (cs : Str) : List Str :=
  match breakColon cs with
  | (a, none) => [a]
  | (a, some rest) =>
    match breakColon rest with
    | (b, none) => [a, b]
    | (b, some rest2) => [a, b, rest2]

/-- Rust `str::find(char)`: index of the first occurrence, if any. -/
def findChar (c : Char) : Str → Option Nat
  | [] => none
  | x :: xs => if x = c then some 0 else (findChar c xs).map (· + 1)

/-- Result of the name/flags split of `utils.rs` 104-107:
`some_ name flags` models `Some((&name[..i], &name[i+1..j]))`, `none_` models `None`, and
`panicked` models the byte-slice panic of `&name[i+1..j]` when the first `']'` lies
before the first `'['` (so `j < i + 1`). -/
inductive NameFlags
  | none_
  | some_ (name flags : Str)
  | panicked
  deriving DecidableEq, Repr

/-- Source `utils.rs` 104-107:
`name.find('[').and_then(|i| name.find(']').map(|j| (&name[..i], &name[i + 1..j])))`. -/
def nameFlags (name : Str) : NameFlags :=
  match findChar '[' name, findChar ']' name with
  | some i, some j =>
    if i + 1 ≤ j then NameFlags.some_ (name.take i) ((name.take j).drop (i + 1))
    else NameFlags.panicked
  | some _, none => NameFlags.none_
  | none, _ => NameFlags.none_

/-- Outcome of `Section::from_str` (`utils.rs` 87-122): `ok` for `Ok`, `notMarker` for
`Err(SectionError)`, and `panicked` when the Rust code panics — either on the failed
`try_into::<[&str; 3]>().unwrap()` when the split yields fewer than three fields, or on
the reversed-bracket byte slice inside the name/flags split. -/
inductive ParseResult
  | ok (sec : Section)
  | notMarker
  | panicked
  deriving DecidableEq, Repr

/-- Source `utils.rs` 87-122, `Section::from_str`. Note that the `starts_with` test comes first
and `trim` is only applied afterwards, exactly as in the source. -/
def Section.fromStr (s : Str) : ParseResult :=
  if ("section_start:".data).isPrefixOf s || ("section_end:".data).isPrefixOf s then
    match splitn3 (trim s) with
    | [t0, _t1, t2] =>
      match SectionType.fromStr t0 with
      | none => ParseResult.notMarker
      | some ty =>
        match nameFlags t2 with
        | NameFlags.panicked => ParseResult.panicked
        | NameFlags.none_ => ParseResult.ok ⟨ty, t2, false⟩
        | NameFlags.some_ n fl => ParseResult.ok ⟨ty, n, fl == "collapsed=true".data⟩
    | _ => ParseResult.panicked
  else ParseResult.notMarker

/-- Source `utils.rs` 124-128: type of the current line in the parser. -/
inductive State
  | text
  | section_ (sec : Section)
  deriving DecidableEq, Repr

/-- Source `utils.rs` 130-143: structure driving the section parsing. -/
structure StateMachine where
  state : State
  sections : List Section
  deriving DecidableEq, Repr

/-- Rust `StateMachine::default()` (`utils.rs` 136-143). -/
def StateMachine.default : StateMachine := ⟨State.text, []⟩

/-- Source `utils.rs` 145-161, `StateMachine::show_line`. -/
def StateMachine.show_line (m : StateMachine) (args : PipelineLog) : Bool :=
  args.all || m.sections.isEmpty ||
    (m.sections.all (fun s => !s.collapsed) && m.sections.any (fun s => s.name == args.step))

/-- A single newline, the text of `msg.none("\n")`. -/
def nl : Str := ['\n']

/-- Source `utils.rs` 163-183, `print_section`: builds one styled message (one `print_msg` call). -/
def print_section (title : Str) (sec : Section) (show_line colored : Bool) : StyledStr :=
  [(Style.warning, "\n> ".data ++ title ++ " [".data),
   (Style.literal, sec.name),
   (Style.warning, "]".data)]
    ++ (if !show_line then
          [(Style.warning, " <".data)]
            ++ (if sec.collapsed && colored then [(Style.none_, nl)] else [])
        else [])
    ++ [(Style.none_, nl)]

/-- Modelled from the spec: the external ANSI segmenter (`yew_ansi::get_sgr_segments`) is
a black-box collaborator; for text free of escape sequences it yields the whole line as a
single segment (and no segment for an empty line). Every input considered here is
escape-free. -/
def get_sgr_segments (line : Str) : List Str :=
  if line = [] then [] else [line]

/-- Body of the per-segment `match state.state` of `_print_log` (`utils.rs` 197-246).
Takes the machine, the current `show_line` value and the segment text; returns the new
machine, the new `show_line`, and the styled messages printed while handling the segment.
`none` models a Rust panic escaping from `Section::from_str`. -/
def processSegment (args : PipelineLog) (colored : Bool) (st : StateMachine) (shw : Bool)
    (s : Str) : Option (StateMachine × Bool × List StyledStr) :=
  match st.state with
  | State.text =>
    match Section.fromStr s with
    | ParseResult.ok sec => some (⟨State.section_ sec, st.sections⟩, shw, [])
    | ParseResult.notMarker =>
      some (st, shw, if shw && !colored then [[(Style.none_, s)]] else [])
    | ParseResult.panicked => none
  | State.section_ sec =>
    match sec.type_ with
    | SectionType.start =>
      let sections' := st.sections ++ [sec]
      let shw' := StateMachine.show_line ⟨State.text, sections'⟩ args
      let banner := print_section s sec shw' colored
      if colored then
        some (⟨State.text, sections'⟩, false,
          [banner] ++ (if shw' then [[(Style.none_, nl)]] else []))
      else
        some (⟨State.text, sections'⟩, shw', [banner])
    | SectionType.end_ =>
      let sections' := st.sections.dropLast
      let shw' := StateMachine.show_line ⟨State.text, sections'⟩ args
      match Section.fromStr s with
      | ParseResult.panicked => none
      | ParseResult.ok sec2 =>
        some (⟨State.section_ sec2, sections'⟩, if colored then false else shw', [])
      | ParseResult.notMarker =>
        some (⟨State.text, sections'⟩, if colored then false else shw', [])

/-- The `for (_effect, s) in yew_ansi::get_sgr_segments(&line)` loop of `_print_log`. -/
def processSegs (args : PipelineLog) (colored : Bool) :
    StateMachine → Bool → List Str → Option (StateMachine × Bool × List StyledStr)
  | st, shw, [] => some (st, shw, [])
  | st, shw, s :: rest =>
    match processSegment args colored st shw s with
    | none => none
    | some (st', shw', chunks) =>
      match processSegs args colored st' shw' rest with
      | none => none
      | some (st2, shw2, chunks') => some (st2, shw2, chunks ++ chunks')

/-- One iteration of the `while let` loop of `_print_log` (`utils.rs` 194-255):
evaluate `show_line`, run the segment loop, and print the end-of-line message if
`show_line` is still set. -/
def processLine (args : PipelineLog) (colored : Bool) (st : StateMachine) (line : Str) :
    Option (StateMachine × List StyledStr) :=
  match processSegs args colored st (st.show_line args) (get_sgr_segments line) with
  | none => none
  | some (st', shw, chunks) =>
    some (st', chunks ++
      (if shw then
        [if colored then [(Style.none_, line), (Style.none_, nl)] else [(Style.none_, nl)]]
      else []))

/-- The `while let Some(Ok(line)) = reader.next()` loop (`utils.rs` 194):
a line-read failure (`Except.error`, e.g. invalid UTF-8) makes the pattern fail, ending
the loop; the function then returns `Ok(())` with the output produced so far. -/
def runLines (args : PipelineLog) (colored : Bool) :
    StateMachine → List (Except Unit Str) → Option (List StyledStr)
  | _, [] => some []
  | _, Except.error _ :: _ => some []
  | st, Except.ok line :: rest =>
    match processLine args colored st line with
    | none => none
    | some (st', chunks) =>
      match runLines args colored st' rest with
      | none => none
      | some out => some (chunks ++ out)

/-- Source `utils.rs` 186-258, `_print_log`. The byte buffer is presented as the stream of
`reader.next()` results delivered by std's `BufReader::lines` (a collaborator outside
this core): `Except.ok` a decoded line, `Except.error` a failed read. The result is the
list of printed styled messages; `none` models a Rust panic escaping the call. -/
def _print_log (log : List (Except Unit Str)) (args : PipelineLog) (mode : ColorChoice)
    (istty : Bool) : Option (List StyledStr) :=
  runLines args (resolveColored mode istty) StateMachine.default log

/-- Modelled from std `BufRead::lines` on valid UTF-8: a `'\r'` that immediately preceded
a `'\n'` is dropped from the line. -/
def stripCr (l : Str) : Str := if l.getLast? = some '\r' then l.dropLast else l

/-- Modelled from std `BufRead::lines` on valid UTF-8 input: split on `'\n'`; every
newline-terminated line loses a trailing `'\r'`; a final fragment without `'\n'` is kept
as-is; a trailing `'\n'` produces no extra empty line. -/
def linesOf (cs : Str) : List Str :=
  let parts := cs.splitOn '\n'
  let front := (parts.dropLast).map stripCr
  match parts.getLast? with
  | some [] => front
  | some l => front ++ [l]
  | none => front

/-- Wrap fully-decoded lines as successful reads. -/
def okLines (ls : List Str) : List (Except Unit Str) := ls.map Except.ok

/-- The first character of `xs` is not whitespace (vacuously true when empty). -/
def headNonWs (xs : Str) : Bool :=
  match xs.head? with
  | some c => !c.isWhitespace
  | none => true

/-- The last character of `xs` is not whitespace (vacuously true when empty). -/
def lastNonWs (xs : Str) : Bool :=
  match xs.getLast? with
  | some c => !c.isWhitespace
  | none => true

lemma isPrefixOf_append_self (l t : Str) : l.isPrefixOf (l ++ t) = true := by
  induction l with
  | nil => simp [List.isPrefixOf]
  | cons c cs ih => simp [List.isPrefixOf, ih]

lemma breakColon_of_not_mem {xs : Str} (h : ':' ∉ xs) : breakColon xs = (xs, none) := by
  induction xs with
  | nil => rfl
  | cons c cs ih =>
    have hc : ¬c = ':' := fun hc => h (hc ▸ List.mem_cons_self c cs)
    have ih' := ih (fun hm => h (List.mem_cons_of_mem c hm))
    simp [breakColon, hc, ih']

lemma breakColon_append {xs : Str} (ys : Str) (h : ':' ∉ xs) :
    breakColon (xs ++ ':' :: ys) = (xs, some ys) := by
  induction xs with
  | nil => simp [breakColon]
  | cons c cs ih =>
    have hc : ¬c = ':' := fun hc => h (hc ▸ List.mem_cons_self c cs)
    have ih' := ih (fun hm => h (List.mem_cons_of_mem c hm))
    simp [breakColon, hc, ih']

lemma findChar_of_not_mem {c : Char} {xs : Str} (h : c ∉ xs) : findChar c xs = none := by
  induction xs with
  | nil => rfl
  | cons x t ih =>
    have hx : ¬x = c := fun hx => h (hx ▸ List.mem_cons_self x t)
    have ih' := ih (fun hm => h (List.mem_cons_of_mem x hm))
    simp [findChar, hx, ih']

lemma findChar_append_self {c : Char} {xs : Str} (ys : Str) (h : c ∉ xs) :
    findChar c (xs ++ c :: ys) = some xs.length := by
  induction xs with
  | nil => simp [findChar]
  | cons x t ih =>
    have hx : ¬x = c := fun hx => h (hx ▸ List.mem_cons_self x t)
    have ih' := ih (fun hm => h (List.mem_cons_of_mem x hm))
    simp [findChar, hx, ih']

lemma findChar_append_le {c : Char} (xs ys : Str) :
    ∃ k, findChar c (xs ++ c :: ys) = some k ∧ k ≤ xs.length := by
  induction xs with
  | nil => exact ⟨0, by simp [findChar], Nat.zero_le _⟩
  | cons x t ih =>
    by_cases hx : x = c
    · exact ⟨0, by simp [findChar, hx], Nat.zero_le _⟩
    · obtain ⟨k, hk, hle⟩ := ih
      exact ⟨k + 1, by simp [findChar, hx, hk], by simpa using Nat.succ_le_succ hle⟩

lemma take_len_append (l₁ l₂ : Str) : (l₁ ++ l₂).take l₁.length = l₁ := by
  induction l₁ with
  | nil => rfl
  | cons c cs ih => simp [ih]

lemma drop_len_append (l₁ l₂ : Str) : (l₁ ++ l₂).drop l₁.length = l₂ := by
  induction l₁ with
  | nil => rfl
  | cons c cs ih => simp [ih]

lemma getLast?_append_cons (xs : Str) (c : Char) (ys : Str) :
    (xs ++ c :: ys).getLast? = (c :: ys).getLast? := by
  induction xs with
  | nil => rfl
  | cons x t ih =>
    rw [List.cons_append]
    cases ht : t ++ c :: ys with
    | nil => exact absurd ht (by simp)
    | cons d r => rw [List.getLast?_cons_cons, ← ht, ih]

lemma lastNonWs_append_cons (xs : Str) (c : Char) (ys : Str) :
    lastNonWs (xs ++ c :: ys) = lastNonWs (c :: ys) := by
  unfold lastNonWs
  rw [getLast?_append_cons]

lemma lastNonWs_cons {c : Char} {field : Str} (hc : c.isWhitespace = false)
    (hf : lastNonWs field = true) : lastNonWs (c :: field) = true := by
  cases field with
  | nil => simp [lastNonWs, hc]
  | cons d r =>
    unfold lastNonWs at hf ⊢
    rw [List.getLast?_cons_cons]
    exact hf

lemma trim_eq_self {cs : Str} (h1 : headNonWs cs = true) (h2 : lastNonWs cs = true) :
    trim cs = cs := by
  cases cs with
  | nil => rfl
  | cons c t =>
    have hc : c.isWhitespace = false := by
      simpa [headNonWs] using h1
    unfold trim
    rw [List.dropWhile_cons, if_neg (by simp [hc])]
    cases hr : (c :: t).reverse with
    | nil => exact absurd hr (by simp)
    | cons d r =>
      have hd : (c :: t).getLast? = some d := by
        rw [← List.head?_reverse, hr]
        rfl
      have hdw : d.isWhitespace = false := by
        simpa [lastNonWs, hd] using h2
      rw [List.dropWhile_cons, if_neg (by simp [hdw]), ← hr, List.reverse_reverse]

lemma nameFlags_pair {name flags : Str} (h1 : '[' ∉ name) (h2 : ']' ∉ name)
    (h3 : ']' ∉ flags) :
    nameFlags (name ++ '[' :: (flags ++ [']'])) = NameFlags.some_ name flags := by
  have hre : name ++ '[' :: flags ++ [']'] = name ++ '[' :: (flags ++ [']']) := by
    simp
  have hnotmem : ']' ∉ name ++ '[' :: flags := by
    intro hm
    rcases List.mem_append.mp hm with hm | hm
    · exact h2 hm
    · rcases List.mem_cons.mp hm with hm | hm
      · exact absurd hm.symm (by decide)
      · exact h3 hm
  have hopen : findChar '[' (name ++ '[' :: (flags ++ [']'])) = some name.length :=
    findChar_append_self _ h1
  have hclose : findChar ']' (name ++ '[' :: (flags ++ [']']))
      = some (name ++ '[' :: flags).length := by
    rw [← hre]
    exact findChar_append_self _ hnotmem
  have hlen : (name ++ '[' :: flags).length = name.length + 1 + flags.length := by
    simp
    omega
  have htake0 : (name ++ '[' :: (flags ++ [']'])).take name.length = name :=
    take_len_append _ _
  have htake : (name ++ '[' :: (flags ++ [']'])).take (name ++ '[' :: flags).length
      = name ++ '[' :: flags := by
    rw [← hre]
    exact take_len_append _ _
  have hdrop : (name ++ '[' :: flags).drop (name.length + 1) = flags := by
    rw [show name ++ '[' :: flags = (name ++ ['[']) ++ flags by simp,
      show name.length + 1 = (name ++ ['[']).length by simp]
    exact drop_len_append _ _
  unfold nameFlags
  rw [hopen, hclose]
  dsimp only
  rw [if_pos (by rw [hlen]; omega), htake0, htake, hdrop]

lemma nameFlags_none {field : Str} (h : '[' ∉ field ∨ ']' ∉ field) :
    nameFlags field = NameFlags.none_ := by
  rcases h with h | h
  · unfold nameFlags
    rw [findChar_of_not_mem h]
  · unfold nameFlags
    rw [findChar_of_not_mem h]
    cases findChar '[' field <;> rfl

lemma nameFlags_reversed {a b : Str} (c : Str) (h1 : '[' ∉ a) (h2 : '[' ∉ b) :
    nameFlags (a ++ ']' :: (b ++ '[' :: c)) = NameFlags.panicked := by
  have hre : a ++ ']' :: b ++ '[' :: c = a ++ ']' :: (b ++ '[' :: c) := by
    simp
  have hnotmem : '[' ∉ a ++ ']' :: b := by
    intro hm
    rcases List.mem_append.mp hm with hm | hm
    · exact h1 hm
    · rcases List.mem_cons.mp hm with hm | hm
      · exact absurd hm.symm (by decide)
      · exact h2 hm
  have hopen : findChar '[' (a ++ ']' :: (b ++ '[' :: c)) = some (a ++ ']' :: b).length := by
    rw [← hre]
    exact findChar_append_self _ hnotmem
  obtain ⟨k, hk, hle⟩ := findChar_append_le (c := ']') a (b ++ '[' :: c)
  have hlen : (a ++ ']' :: b).length = a.length + 1 + b.length := by
    simp
    omega
  unfold nameFlags
  rw [hopen, hk]
  dsimp only
  rw [if_neg (by rw [hlen]; omega)]

lemma splitn3_marker (kw ts field : Str) (hkw : ':' ∉ kw) (hts : ':' ∉ ts) :
    splitn3 (kw ++ ':' :: (ts ++ ':' :: field)) = [kw, ts, field] := by
  simp [splitn3, breakColon_append _ hkw, breakColon_append _ hts]

/-- Evaluation of `Section::from_str` on a well-shaped `section_start` marker with the
keyword, timestamp and name-and-flags fields made explicit. -/
lemma fromStr_start_eq (ts field : Str) (hts : ':' ∉ ts) (hlast : lastNonWs field = true) :
    Section.fromStr ("section_start:".data ++ ts ++ ':' :: field)
      = (match nameFlags field with
         | NameFlags.panicked => ParseResult.panicked
         | NameFlags.none_ => ParseResult.ok ⟨SectionType.start, field, false⟩
         | NameFlags.some_ n fl =>
             ParseResult.ok ⟨SectionType.start, n, fl == "collapsed=true".data⟩) := by
  have hassoc : "section_start:".data ++ ts ++ ':' :: field
      = "section_start:".data ++ (ts ++ ':' :: field) := by
    simp
  have hpre : ("section_start:".data).isPrefixOf ("section_start:".data ++ ts ++ ':' :: field)
      = true := by
    rw [hassoc]
    exact isPrefixOf_append_self _ _
  have hhead : headNonWs ("section_start:".data ++ ts ++ ':' :: field) = true := rfl
  have hlast' : lastNonWs ("section_start:".data ++ ts ++ ':' :: field) = true := by
    rw [lastNonWs_append_cons]
    exact lastNonWs_cons (by decide) hlast
  have htrim : trim ("section_start:".data ++ ts ++ ':' :: field)
      = "section_start:".data ++ ts ++ ':' :: field := trim_eq_self hhead hlast'
  have hsplitshape : "section_start:".data ++ ts ++ ':' :: field
      = "section_start".data ++ ':' :: (ts ++ ':' :: field) := by
    rw [show ("section_start:".data : Str) = "section_start".data ++ [':'] from rfl]
    simp
  have hsplit : splitn3 ("section_start:".data ++ ts ++ ':' :: field)
      = ["section_start".data, ts, field] := by
    rw [hsplitshape]
    exact splitn3_marker _ _ _ (by decide) hts
  unfold Section.fromStr
  rw [if_pos (by simp [hpre]), htrim, hsplit]
  rfl

lemma lastNonWs_concat (xs : Str) {c : Char} (hc : c.isWhitespace = false) :
    lastNonWs (xs ++ [c]) = true := by
  unfold lastNonWs
  rw [List.getLast?_concat]
  simp [hc]

/-- A printed message is a section banner exactly when it opens with a warning-styled
piece: in this renderer only `print_section` emits warning-styled text (the spec calls a
banner "a warning-styled line"). -/
def isBanner (m : StyledStr) : Bool :=
  match m.head? with
  | some (Style.warning, _) => true
  | _ => false

lemma isBanner_print_section (title : Str) (sec : Section) (b c : Bool) :
    isBanner (print_section title sec b c) = true := rfl

/-- Predicate `hasSubstr hay needle` decides whether `needle` occurs contiguously in `hay`. -/
def hasSubstr : Str → Str → Bool
  | [], needle => needle.isEmpty
  | c :: t, needle => needle.isPrefixOf (c :: t) || hasSubstr t needle

/-- C1: for every render state and filter, `show_line` is true exactly when `all` is
set, or the stack of open sections is empty, or (every open section is non-collapsed and
some open section's name equals the filter's `step`). In particular: a line inside a
single non-collapsed matching section is shown; a line inside only non-matching sections
is hidden; a line under a stack containing any collapsed section is hidden. -/
theorem show_line_visibility_rule :
    (∀ (args : PipelineLog) (m : StateMachine),
      m.show_line args = true ↔
        (args.all = true ∨ m.sections = [] ∨
          ((∀ s ∈ m.sections, s.collapsed = false) ∧ ∃ s ∈ m.sections, s.name = args.step)))
    ∧ (∀ (args : PipelineLog) (sec : Section), args.all = false → sec.collapsed = false →
        sec.name = args.step → StateMachine.show_line ⟨State.text, [sec]⟩ args = true)
    ∧ (∀ (args : PipelineLog) (secs : List Section), args.all = false → secs ≠ [] →
        (∀ s ∈ secs, s.name ≠ args.step) →
        StateMachine.show_line ⟨State.text, secs⟩ args = false)
    ∧ (∀ (args : PipelineLog) (secs : List Section), args.all = false → secs ≠ [] →
        (∃ s ∈ secs, s.collapsed = true) →
        StateMachine.show_line ⟨State.text, secs⟩ args = false) := by
  have key : ∀ (args : PipelineLog) (m : StateMachine),
      m.show_line args = true ↔
        (args.all = true ∨ m.sections = [] ∨
          ((∀ s ∈ m.sections, s.collapsed = false) ∧ ∃ s ∈ m.sections, s.name = args.step)) := by
    intro args m
    simp [StateMachine.show_line, Bool.or_eq_true, Bool.and_eq_true, List.all_eq_true,
      List.any_eq_true, List.isEmpty_iff, Bool.not_eq_true', beq_iff_eq, or_assoc]
  refine ⟨key, ?_, ?_, ?_⟩
  · intro args sec hall hcol hname
    exact (key args ⟨State.text, [sec]⟩).mpr
      (Or.inr (Or.inr ⟨by simpa using hcol, ⟨sec, by simp, hname⟩⟩))
  · intro args secs hall hne hnames
    cases hb : StateMachine.show_line ⟨State.text, secs⟩ args with
    | false => rfl
    | true =>
      rcases (key args ⟨State.text, secs⟩).mp hb with h | h | ⟨_, s, hs, hname⟩
      · exact absurd h (by simp [hall])
      · exact absurd h hne
      · exact absurd hname (hnames s hs)
  · intro args secs hall hne hcol
    cases hb : StateMachine.show_line ⟨State.text, secs⟩ args with
    | false => rfl
    | true =>
      rcases (key args ⟨State.text, secs⟩).mp hb with h | h | ⟨hnc, _⟩
      · exact absurd h (by simp [hall])
      · exact absurd h hne
      · obtain ⟨s, hs, hsc⟩ := hcol
        rw [hnc s hs] at hsc
        exact absurd hsc (by simp)

/-- Witness for C1: the visibility rule applied to a concrete filter and stack. -/
theorem show_line_visibility_rule_witness :
    StateMachine.show_line ⟨State.text, [⟨SectionType.start, "build".data, false⟩]⟩
      ⟨false, "build".data⟩ = true :=
  show_line_visibility_rule.2.1 ⟨false, "build".data⟩
    ⟨SectionType.start, "build".data, false⟩ rfl rfl rfl

/-- C6 (code bug): a leading carriage return is NOT trimmed before the
`section_start:`/`section_end:` prefix test (`starts_with` runs before `trim` in
`Section::from_str`), so `"\rsection_start:0:name"` is rejected as a marker even though
its trimmed form parses as a Start marker named `name`. -/
theorem leading_cr_defeats_marker_match :
    Section.fromStr ("\rsection_start:0:name".data) = ParseResult.notMarker
    ∧ Section.fromStr (trim ("\rsection_start:0:name".data))
        = ParseResult.ok ⟨SectionType.start, "name".data, false⟩ := by
  constructor
  · decide
  · decide

/-- C8: rendering is deterministic — the embedding is a pure function of the line
stream, the filter and the resolved color inputs, because the Rust code builds all of
its state (`StateMachine::default()`) locally inside the call and touches no globals;
two invocations on the same inputs produce identical output. -/
theorem render_deterministic :
    ∀ (log : List (Except Unit Str)) (args : PipelineLog) (mode : ColorChoice)
      (istty : Bool), _print_log log args mode istty = _print_log log args mode istty :=
  fun _ _ _ _ => rfl

/-- C9: processing a segment while an End marker is pending on an empty stack is safe:
the `Vec::pop` is a no-op, no panic occurs (provided the segment itself does not make
`from_str` panic), the stack stays empty, no output is printed by this step, and the
recomputed `show_line` is true (empty stack means outside any section). -/
theorem end_marker_on_empty_stack_safe :
    ∀ (args : PipelineLog) (sec : Section) (shw : Bool) (s : Str),
      sec.type_ = SectionType.end_ →
      Section.fromStr s ≠ ParseResult.panicked →
      ∃ st : State, processSegment args false ⟨State.section_ sec, []⟩ shw s
        = some (⟨st, []⟩, true, []) := by
  intro args sec shw s hty hnp
  obtain ⟨ty, nm, col⟩ := sec
  cases hty
  cases hp : Section.fromStr s with
  | panicked => exact absurd hp hnp
  | ok sec2 =>
    exact ⟨State.section_ sec2, by simp [processSegment, hp, StateMachine.show_line]⟩
  | notMarker =>
    exact ⟨State.text, by simp [processSegment, hp, StateMachine.show_line]⟩

/-- Witness for C9: an End marker pending on the empty stack, next segment plain text. -/
theorem end_marker_on_empty_stack_safe_witness :
    ∃ st : State, processSegment ⟨false, "x".data⟩ false
      ⟨State.section_ ⟨SectionType.end_, "a".data, false⟩, []⟩ false ("next".data)
      = some (⟨st, []⟩, true, []) :=
  end_marker_on_empty_stack_safe ⟨false, "x".data⟩ ⟨SectionType.end_, "a".data, false⟩
    false ("next".data) rfl (by decide)

/-- C10: the `while let Some(Ok(line))` loop stops at the first failed line read and the
call still returns success: rendering a stream with an error in the middle equals
rendering only the lines before the error, and a stream that fails immediately renders
to an empty output. -/
theorem line_read_error_truncates :
    (∀ (args : PipelineLog) (colored : Bool) (st : StateMachine)
        (pre : List (Except Unit Str)) (e : Unit) (rest : List (Except Unit Str)),
      runLines args colored st (pre ++ Except.error e :: rest) = runLines args colored st pre)
    ∧ (∀ (args : PipelineLog) (colored : Bool) (st : StateMachine) (e : Unit)
        (rest : List (Except Unit Str)),
      runLines args colored st (Except.error e :: rest) = some []) := by
  constructor
  · intro args colored st pre e rest
    induction pre generalizing st with
    | nil => rfl
    | cons x t ih =>
      cases x with
      | error e' => rfl
      | ok line =>
        simp only [List.cons_append, runLines]
        cases hp : processLine args colored st line with
        | none => rfl
        | some p =>
          obtain ⟨st', chunks⟩ := p
          dsimp only
          rw [List.append_eq, ih st']
  · intro args colored st e rest
    rfl

/-- Counterexample for C4: `"section_start:0"` starts with the marker keyword but splits
into only two fields; `Section::from_str` panics on it (failed `try_into().unwrap()`)
instead of returning the typed not-a-marker failure the claim promises. -/
theorem c4_counterexample :
    Section.fromStr ("section_start:0".data) = ParseResult.panicked
    ∧ ParseResult.panicked ≠ ParseResult.notMarker := by
  constructor
  · decide
  · decide

/-- C4 (amended): `splitn(3, ':')` yields at most three fields, never more; when a
keyword-prefixed segment's split yields fewer than three fields, the parser panics on
the failed conversion to a three-element array rather than returning a typed
not-a-marker failure. -/
theorem too_few_fields_panic :
    (∀ s : Str,
      (("section_start:".data).isPrefixOf s = true ∨ ("section_end:".data).isPrefixOf s = true) →
      (splitn3 (trim s)).length < 3 → Section.fromStr s = ParseResult.panicked)
    ∧ (∀ t : Str, (splitn3 t).length ≤ 3) := by
  constructor
  · intro s hpre hlen
    unfold Section.fromStr
    rw [if_pos (by rcases hpre with h | h <;> simp [h])]
    cases hsp : splitn3 (trim s) with
    | nil => rfl
    | cons a t1 =>
      cases t1 with
      | nil => rfl
      | cons b t2 =>
        cases t2 with
        | nil => rfl
        | cons c t3 =>
          cases t3 with
          | nil => rw [hsp] at hlen; simp at hlen
          | cons d t4 => rfl
  · intro t
    unfold splitn3
    rcases h1 : breakColon t with ⟨a, _ | rest⟩
    · simp
    · dsimp only
      rcases h2 : breakColon rest with ⟨b, _ | r2⟩ <;> simp

/-- Witness for C4 (amended): a `section_end:` segment with a single field panics. -/
theorem too_few_fields_panic_witness :
    Section.fromStr ("section_end:123".data) = ParseResult.panicked :=
  too_few_fields_panic.1 ("section_end:123".data) (Or.inr (by decide)) (by decide)

/-- Counterexample for C5: in `"section_start:0:a]b[c"` the name-and-flags field has `]`
only before `[`; the claim says the whole field becomes the name and the parse succeeds,
but `Section::from_str` panics on the reversed byte-slice `&name[i + 1..j]`. -/
theorem c5_counterexample :
    Section.fromStr ("section_start:0:a]b[c".data) = ParseResult.panicked
    ∧ ParseResult.panicked ≠ ParseResult.ok ⟨SectionType.start, "a]b[c".data, false⟩ := by
  constructor
  · decide
  · decide

/-- C5 (amended): for the name-and-flags field of a well-shaped marker —
(1) when a `[` is followed by a `]`, the text before `[` is the name and the text
between the brackets is the flags string;
(2) when no `[` exists, or `[` exists but no `]` does, the whole field is the name,
flags are absent and `collapsed = false`;
(3) but when the first `]` lies strictly before the first `[`, the parser panics on the
reversed byte-slice instead of treating the whole field as the name. -/
theorem name_flags_split_behavior :
    (∀ ts name flags : Str, ':' ∉ ts → '[' ∉ name → ']' ∉ name → ']' ∉ flags →
      Section.fromStr
        ("section_start:".data ++ ts ++ ':' :: (name ++ '[' :: (flags ++ [']'])))
        = ParseResult.ok ⟨SectionType.start, name, flags == "collapsed=true".data⟩)
    ∧ (∀ ts field : Str, ':' ∉ ts → ('[' ∉ field ∨ ']' ∉ field) → lastNonWs field = true →
      Section.fromStr ("section_start:".data ++ ts ++ ':' :: field)
        = ParseResult.ok ⟨SectionType.start, field, false⟩)
    ∧ (∀ ts a b c : Str, ':' ∉ ts → '[' ∉ a → '[' ∉ b →
        lastNonWs (a ++ ']' :: (b ++ '[' :: c)) = true →
      Section.fromStr ("section_start:".data ++ ts ++ ':' :: (a ++ ']' :: (b ++ '[' :: c)))
        = ParseResult.panicked) := by
  refine ⟨?_, ?_, ?_⟩
  · intro ts name flags hts h1 h2 h3
    have hlast : lastNonWs (name ++ '[' :: (flags ++ [']'])) = true := by
      rw [show name ++ '[' :: (flags ++ [']']) = (name ++ '[' :: flags) ++ [']'] by simp]
      exact lastNonWs_concat _ (by decide)
    rw [fromStr_start_eq _ _ hts hlast, nameFlags_pair h1 h2 h3]
  · intro ts field hts h hlast
    rw [fromStr_start_eq _ _ hts hlast, nameFlags_none h]
  · intro ts a b c hts h1 h2 hlast
    rw [fromStr_start_eq _ _ hts hlast, nameFlags_reversed c h1 h2]

/-- Witness for C5 (amended): flags `x` give `collapsed = false` and name `step`. -/
theorem name_flags_split_behavior_witness :
    Section.fromStr
      ("section_start:".data ++ "0".data ++ ':' :: ("step".data ++ '[' :: ("x".data ++ [']'])))
      = ParseResult.ok ⟨SectionType.start, "step".data, false⟩ := by
  have h := name_flags_split_behavior.1 ("0".data) ("step".data) ("x".data)
    (by decide) (by decide) (by decide) (by decide)
  rw [show (("x".data : Str) == "collapsed=true".data) = false from by decide] at h
  exact h

/-- C7: for every successfully parsed marker built with a bracketed flags string, the
`collapsed` field is true iff that flags string is exactly `collapsed=true`; with no
well-formed bracket pair the parse succeeds with `collapsed = false`. -/
theorem collapsed_flag_rule :
    (∀ ts name flags : Str, ':' ∉ ts → '[' ∉ name → ']' ∉ name → ']' ∉ flags →
      ∃ b : Bool,
        Section.fromStr
          ("section_start:".data ++ ts ++ ':' :: (name ++ '[' :: (flags ++ [']'])))
          = ParseResult.ok ⟨SectionType.start, name, b⟩
        ∧ (b = true ↔ flags = "collapsed=true".data))
    ∧ (∀ ts field : Str, ':' ∉ ts → ('[' ∉ field ∨ ']' ∉ field) → lastNonWs field = true →
      Section.fromStr ("section_start:".data ++ ts ++ ':' :: field)
        = ParseResult.ok ⟨SectionType.start, field, false⟩) := by
  constructor
  · intro ts name flags hts h1 h2 h3
    refine ⟨flags == "collapsed=true".data, ?_, by simp⟩
    have hlast : lastNonWs (name ++ '[' :: (flags ++ [']'])) = true := by
      rw [show name ++ '[' :: (flags ++ [']']) = (name ++ '[' :: flags) ++ [']'] by simp]
      exact lastNonWs_concat _ (by decide)
    rw [fromStr_start_eq _ _ hts hlast, nameFlags_pair h1 h2 h3]
  · intro ts field hts h hlast
    rw [fromStr_start_eq _ _ hts hlast, nameFlags_none h]

/-- Witness for C7: flags exactly `collapsed=true` give `collapsed = true`. -/
theorem collapsed_flag_rule_witness :
    Section.fromStr
      ("section_start:".data ++ "0".data ++ ':'
        :: ("build".data ++ '[' :: ("collapsed=true".data ++ [']'])))
      = ParseResult.ok ⟨SectionType.start, "build".data, true⟩ := by
  obtain ⟨b, hb, hiff⟩ := collapsed_flag_rule.1 ("0".data) ("build".data)
    ("collapsed=true".data) (by decide) (by decide) (by decide) (by decide)
  rw [show b = true from hiff.mpr rfl] at hb
  exact hb

lemma isBanner_plain (s : Str) : isBanner [(Style.none_, s)] = false := rfl

/-- The concrete log used to refute C2: one Start marker and one End marker, `all` set. -/
def c2Log : Str := "section_start:0:a\nX\nsection_end:0:a\nY\n".data

/-- Output of rendering `c2Log` with `{all = true}`, non-colorized. -/
def c2Output : List StyledStr :=
  [[(Style.none_, nl)],
   [(Style.warning, "\n> X [".data), (Style.literal, "a".data), (Style.warning, "]".data),
    (Style.none_, nl)],
   [(Style.none_, nl)],
   [(Style.none_, nl)],
   [(Style.none_, nl)]]

/-- Counterexample for C2: `c2Log` contains one Start and one End marker (both parse),
yet the rendered output contains exactly one banner, not one per marker — no banner is
ever emitted for the End marker. -/
theorem c2_counterexample :
    Section.fromStr ("section_start:0:a".data)
        = ParseResult.ok ⟨SectionType.start, "a".data, false⟩
    ∧ Section.fromStr ("section_end:0:a".data)
        = ParseResult.ok ⟨SectionType.end_, "a".data, false⟩
    ∧ _print_log (okLines (linesOf c2Log)) ⟨true, []⟩ ColorChoice.never false = some c2Output
    ∧ (c2Output.filter isBanner).length = 1
    ∧ ¬ (c2Output.filter isBanner).length = 2 := by
  refine ⟨by decide, by decide, by decide, by decide, by decide⟩

/-- C2 (amended): a banner is emitted only while a pending Start marker is resolved:
processing the segment after a Start marker prints exactly one banner, whose title is
that segment's text; processing the segment after an End marker prints nothing at all;
and plain-text segments never print banners. Hence Start markers followed by a further
segment get exactly one banner and End markers get none. -/
theorem banner_emission_rule :
    (∀ (args : PipelineLog) (colored : Bool) (secs : List Section) (shw : Bool) (s : Str)
        (sec : Section) (r : StateMachine × Bool × List StyledStr),
      sec.type_ = SectionType.end_ →
      processSegment args colored ⟨State.section_ sec, secs⟩ shw s = some r →
      r.2.2 = [])
    ∧ (∀ (args : PipelineLog) (colored : Bool) (secs : List Section) (shw : Bool) (s : Str)
        (sec : Section) (r : StateMachine × Bool × List StyledStr),
      sec.type_ = SectionType.start →
      processSegment args colored ⟨State.section_ sec, secs⟩ shw s = some r →
      (r.2.2.filter isBanner).length = 1
        ∧ r.2.2.head? = some (print_section s sec
            (StateMachine.show_line ⟨State.text, secs ++ [sec]⟩ args) colored))
    ∧ (∀ (args : PipelineLog) (colored : Bool) (secs : List Section) (shw : Bool) (s : Str)
        (r : StateMachine × Bool × List StyledStr),
      processSegment args colored ⟨State.text, secs⟩ shw s = some r →
      r.2.2.filter isBanner = []) := by
  refine ⟨?_, ?_, ?_⟩
  · intro args colored secs shw s sec r hty hmr
    obtain ⟨ty, nm, col⟩ := sec
    cases hty
    cases hp : Section.fromStr s with
    | panicked => simp [processSegment, hp] at hmr
    | ok sec2 =>
      simp [processSegment, hp] at hmr
      rw [← hmr]
    | notMarker =>
      simp [processSegment, hp] at hmr
      rw [← hmr]
  · intro args colored secs shw s sec r hty hmr
    obtain ⟨ty, nm, col⟩ := sec
    cases hty
    cases hc : colored with
    | false =>
      simp [processSegment, hc] at hmr
      rw [← hmr]
      simp [List.filter_cons, isBanner_print_section]
    | true =>
      simp [processSegment, hc] at hmr
      by_cases hs : StateMachine.show_line
          ⟨State.text, secs ++ [⟨SectionType.start, nm, col⟩]⟩ args = true
      · rw [if_pos hs] at hmr
        rw [← hmr]
        simp [List.filter_cons, isBanner_print_section, isBanner_plain]
      · rw [if_neg hs] at hmr
        rw [← hmr]
        simp [List.filter_cons, isBanner_print_section]
  · intro args colored secs shw s r hmr
    cases hp : Section.fromStr s with
    | panicked => simp [processSegment, hp] at hmr
    | ok sec2 =>
      simp [processSegment, hp] at hmr
      rw [← hmr]
      rfl
    | notMarker =>
      simp [processSegment, hp] at hmr
      rw [← hmr]
      by_cases hcond : shw = true ∧ colored = false
      · rw [if_pos hcond]
        simp [List.filter_cons, isBanner_plain]
      · rw [if_neg hcond]
        rfl

/-- Witness for C2 (amended): handling the segment after an End marker emits nothing. -/
theorem banner_emission_rule_witness :
    ((⟨State.text, []⟩, true, ([] : List StyledStr)) :
        StateMachine × Bool × List StyledStr).2.2 = [] :=
  banner_emission_rule.1 ⟨true, []⟩ false [] true ("z".data)
    ⟨SectionType.end_, "a".data, false⟩ (⟨State.text, []⟩, true, []) rfl (by rfl)

/-- The end-to-end input of C3. -/
def c3Input : Str :=
  "section_start:0:a[collapsed=true]\r\nhidden line\r\nsection_end:0:a\r\nvisible line\r\n".data

/-- Output of rendering `c3Input` with `{all = false, step = "x"}`, non-colorized. -/
def c3Output : List StyledStr :=
  [[(Style.none_, nl)],
   [(Style.warning, "\n> hidden line [".data), (Style.literal, "a".data),
    (Style.warning, "]".data), (Style.warning, " <".data), (Style.none_, nl)],
   [(Style.none_, nl)]]

/-- Counterexample for C3: the render of the claimed scenario produces one banner (not
two), the text `visible line` does not occur anywhere in the output, and the text
`hidden line` does occur (as the banner title). -/
theorem c3_counterexample :
    _print_log (okLines (linesOf c3Input)) ⟨false, "x".data⟩ ColorChoice.never false
      = some c3Output
    ∧ ¬ ((c3Output.filter isBanner).length = 2
          ∧ hasSubstr (plainBytes c3Output) ("visible line".data) = true
          ∧ hasSubstr (plainBytes c3Output) ("hidden line".data) = false) := by
  refine ⟨by decide, by decide⟩

/-- C3 (amended): the scenario renders to the bytes `"\n\n> hidden line [a] <\n\n"` —
exactly one banner, raised when the segment after the Start marker (the line
`hidden line`) is processed, so `hidden line` becomes the banner's title and is marked
filtered with `" <"`; `visible line` is consumed as the segment that resolves the End
marker and is not printed; the first and last lines contribute bare newlines. -/
theorem c3_actual_output :
    _print_log (okLines (linesOf c3Input)) ⟨false, "x".data⟩ ColorChoice.never false
      = some c3Output
    ∧ plainBytes c3Output = "\n\n> hidden line [a] <\n\n".data
    ∧ (c3Output.filter isBanner).length = 1
    ∧ hasSubstr (plainBytes c3Output) ("hidden line".data) = true
    ∧ hasSubstr (plainBytes c3Output) ("visible line".data) = false := by
  refine ⟨by decide, by decide, by decide, by decide, by decide⟩

end Glctl
